import Mathlib

/-!
Verification of the obographs disease-ontology bot
(`scheduled_bots/ontology/DOID_obographs_bot.py`).

The Python source is shallowly embedded below.  Python dictionaries are
modelled as association lists (`List (String × _)`) with first-key lookup and
in-place update, optional values (`None`) as `Option`, exceptions as
`Except String`, and Python truthiness tests (`if x:`) by explicit helper
functions.  Python string operations used by the source (`in`, `str.replace`,
`str.split`, `str.lower`, `urllib.request.unquote`) are implemented as
structurally recursive functions over `List Char` so that every definition is
kernel-evaluable on concrete inputs; `unquote` is modelled as single-byte
percent-decoding (the ASCII fragment of the library routine, which is all the
wiki-title logic depends on).  Calls to the external wikidataintegrator
client (item writes, the release `get_or_create`) are modelled as injected
parameters; the statement objects the node builder produces are reified in
the `Stmt` type.
-/

set_option maxRecDepth 4000

namespace DOID

/-! ### Python string primitives -/

/-- ASCII lowering of one character, as `str.lower` acts on the ASCII range. -/
def lowerChar (c : Char) : Char :=
  if 'A' ≤ c ∧ c ≤ 'Z' then Char.ofNat (c.toNat + 32) else c

/-- Model of Python `str.lower` (ASCII fragment). -/
def strLower (s : String) : String := ⟨s.data.map lowerChar⟩

/-- Value of a hexadecimal digit, if the character is one. -/
def hexDigit (c : Char) : Option Nat :=
  if '0' ≤ c ∧ c ≤ '9' then some (c.toNat - '0'.toNat)
  else if 'a' ≤ c ∧ c ≤ 'f' then some (c.toNat - 'a'.toNat + 10)
  else if 'A' ≤ c ∧ c ≤ 'F' then some (c.toNat - 'A'.toNat + 10)
  else none

/-- Model of `urllib.request.unquote`: percent-escapes `%XX` become the
character with code `XX`; malformed escapes are copied through verbatim,
exactly as the library routine leaves them. -/
def unquote : List Char → List Char
  | [] => []
  | '%' :: a :: b :: rest =>
    match hexDigit a, hexDigit b with
    | some x, some y => Char.ofNat (16 * x + y) :: unquote rest
    | _, _ => '%' :: unquote (a :: b :: rest)
  | c :: rest => c :: unquote rest

/-- Model of the Python substring test `pat in s`. -/
def containsSub (pat s : List Char) : Bool :=
  (List.range (s.length + 1)).any (fun i => pat.isPrefixOf (s.drop i))

/-- Worker for `removeAll`, with explicit fuel so the recursion is structural
(the fuel is always sufficient: each step consumes at least one character). -/
def removeAllFuel (pat : List Char) : Nat → List Char → List Char
  | 0, s => s
  | _ + 1, [] => []
  | fuel + 1, c :: rest =>
    if pat ≠ [] ∧ pat.isPrefixOf (c :: rest) then
      removeAllFuel pat fuel ((c :: rest).drop pat.length)
    else
      c :: removeAllFuel pat fuel rest

/-- Model of Python `s.replace(pat, "")`: delete every (non-overlapping,
left-to-right) occurrence of `pat` in `s`. -/
def removeAll (pat s : List Char) : List Char := removeAllFuel pat s.length s

/-- Model of Python `s.split(sep, 1)` unpacked into two parts: split at the
first occurrence of `sep`, or `none` when `sep` does not occur (in which case
the Python two-variable unpacking raises). -/
def splitFirst (sep : Char) : List Char → Option (List Char × List Char)
  | [] => none
  | c :: rest =>
    if c = sep then some ([], rest)
    else (splitFirst sep rest).map (fun p => (c :: p.1, p.2))

/-- Model of Python `s.split(sep)` (no limit, single-character separator). -/
def splitChar (sep : Char) : List Char → List (List Char)
  | [] => [[]]
  | c :: rest =>
    let r := splitChar sep rest
    if c = sep then [] :: r
    else
      match r with
      | [] => [[c]]
      | h :: t => (c :: h) :: t

/-- Python truthiness of an optional boolean (`None` and `False` are falsy). -/
def truthyOB : Option Bool → Bool
  | some b => b
  | none => false

/-- Python truthiness of an optional string (`None` and `""` are falsy). -/
def pyTruthyStr : Option String → Bool
  | some s => !s.data.isEmpty
  | none => false

/-! ### Raw input documents (the obographs JSON shapes the bot reads) -/

/-- One entry of a `basicPropertyValues` list: a `pred`/`val` pair. -/
structure BPV where
  pred : String
  val : String
deriving DecidableEq

/-- One entry of a node's `synonyms` list (`pred`, `val`, `xrefs`; the source
indexes `syn['xrefs']` unconditionally, so the field is required). -/
structure SynEntry where
  pred : String
  val : String
  xrefs : List String
deriving DecidableEq

/-- A node's `definition` block: optional `val` text and optional `xrefs`. -/
structure DefBlock where
  val : Option String
  xrefs : Option (List String)
deriving DecidableEq

/-- A node's `meta` dictionary.  `xrefs` entries are dictionaries with a
single `val` key in the JSON; they are modelled by their `val` strings. -/
structure NodeMeta where
  definition : Option DefBlock
  deprecated : Option Bool
  xrefs : Option (List String)
  basicPropertyValues : Option (List BPV)
  synonyms : Option (List SynEntry)
deriving DecidableEq

/-- One raw node entry of the input graph. -/
structure RawNode where
  id : String
  lbl : Option String
  type : Option String
  meta : Option NodeMeta
deriving DecidableEq

/-- One raw edge entry of the input graph. -/
structure RawEdge where
  sub : String
  pred : String
  obj : String
deriving DecidableEq

/-! ### The `DONode` data model -/

/-- The parsed per-node state of `DONode.__init__`/`DONode.parse_meta`.
The mutable statement-building scratch fields (`s`, `s_xref`, `s_main`,
`reference`) and the back-pointer `do_graph` are not part of the data model;
statement building is modelled functionally below. -/
structure DONode where
  id : String
  doid : String
  lbl : Option String
  type : Option String
  «namespace» : Option String
  definition : Option String
  definition_xrefs : Option (List String)
  deprecated : Option Bool
  alt_id : Option (List String)
  synonym_xrefs : Option (List (String × List String))
  synonym_values : Option (List (String × List String))
  synonyms : Option (List String)
  wikilink : Option String
  xrefs : List String
  relationships : List (String × String)
deriving DecidableEq

/-- The predicate IRI carrying a node's OBO namespace. -/
def hasOBONamespace : String :=
  "http://www.geneontology.org/formats/oboInOwl#hasOBONamespace"

/-- The predicate IRI carrying a node's alternative identifiers. -/
def hasAlternativeId : String :=
  "http://www.geneontology.org/formats/oboInOwl#hasAlternativeId"

/-- The URL pattern marking a definition xref as an English-encyclopedia
link: `"url:http://en.wikipedia.org/wiki/"`. -/
def wikiPat : List Char := "url:http://en.wikipedia.org/wiki/".data

/-- Python `node['id'].split("/")[-1].replace("_", ":")`. -/
def doidOf (id : String) : String :=
  ⟨((splitChar '/' id.data).reverse.headD []).map (fun c => if c = '_' then ':' else c)⟩

/-- The fresh node state produced by `DONode.__init__` before `parse_meta`
runs (everything unset, `xrefs` and `relationships` empty). -/
def baseNode (r : RawNode) : DONode :=
  { id := r.id
    doid := doidOf r.id
    lbl := r.lbl
    type := r.type
    «namespace» := none
    definition := none
    definition_xrefs := none
    deprecated := none
    alt_id := none
    synonym_xrefs := none
    synonym_values := none
    synonyms := none
    wikilink := none
    xrefs := []
    relationships := [] }

/-- The candidate wiki xrefs: definition xrefs containing the wiki URL
pattern as a substring. -/
def wikiMatches (xs : List String) : List String :=
  xs.filter (fun x => containsSub wikiPat x.data)

/-- The percent-decoded title extracted from one candidate xref:
`unquote(x.replace("url:http://en.wikipedia.org/wiki/", ""))`. -/
def wikiTitle (x : String) : String := ⟨unquote (removeAll wikiPat x.data)⟩

/-- The wiki-link extraction block of `DONode.parse_meta` (source lines
166–174), returning the extracted link together with the warnings printed
(the multiple-candidate `print` is modelled as a returned warning string).
The block runs only when `definition_xrefs` is truthy. -/
def parse_wikilink (doid : String) (dxrefs : Option (List String)) :
    Option String × List String :=
  match dxrefs with
  | none => (none, [])
  | some xs =>
    if xs.isEmpty then (none, [])
    else
      let url_xrefs := wikiMatches xs
      if 1 < url_xrefs.length then (none, [doid ++ " multiple wikilinks"])
      else
        match url_xrefs with
        | [x] =>
          let url := wikiTitle x
          if url.data.contains '#' then (none, []) else (some url, [])
        | _ => (none, [])

/-- The distinct namespace values of a `basicPropertyValues` list — Python
collects the values into a `set`, so duplicates collapse. -/
def nsDistinct (l : List BPV) : List String :=
  ((l.filter (fun x => x.pred = hasOBONamespace)).map BPV.val).dedup

/-- The distinct alternative-id values of a `basicPropertyValues` list. -/
def altDistinct (l : List BPV) : List String :=
  ((l.filter (fun x => x.pred = hasAlternativeId)).map BPV.val).dedup

/-- The `basicPropertyValues` block of `DONode.parse_meta`: if present, the
namespace multiset must have exactly one distinct value (`assert len(...) == 1`,
modelled as an `AssertionError`), and `alt_id` is set when the alternative-id
predicate occurs. -/
def applyBPV (n : DONode) : Option (List BPV) → Except String DONode
  | none => .ok n
  | some l =>
    if (nsDistinct l).length = 1 then
      .ok { n with
        «namespace» := (nsDistinct l).head?
        alt_id := if l.any (fun x => x.pred = hasAlternativeId) then some (altDistinct l) else n.alt_id }
    else .error "AssertionError"

/-- The per-predicate union of synonym xrefs (`defaultdict(set)` grouping). -/
def synXrefsOf (syns : List SynEntry) : List (String × List String) :=
  ((syns.map SynEntry.pred).dedup).map
    (fun p => (p, ((syns.filter (fun s => s.pred = p)).flatMap SynEntry.xrefs).dedup))

/-- The per-predicate set of synonym values (`defaultdict(set)` grouping). -/
def synValuesOf (syns : List SynEntry) : List (String × List String) :=
  ((syns.map SynEntry.pred).dedup).map
    (fun p => (p, ((syns.filter (fun s => s.pred = p)).map SynEntry.val).dedup))

/-- The `synonyms` block of `DONode.parse_meta`: all synonym values, minus the
node's own label (`set(chain(*sval.values())) - {self.lbl}`). -/
def applySynonyms (n : DONode) : Option (List SynEntry) → DONode
  | none => n
  | some syns =>
    { n with
      synonym_xrefs := some (synXrefsOf syns)
      synonym_values := some (synValuesOf syns)
      synonyms := some (((syns.map SynEntry.val).dedup).filter (fun v => n.lbl ≠ some v)) }

/-- The unconditional first half of `DONode.parse_meta`: definition,
definition xrefs, the deprecated flag (`meta.get('deprecated', False)`), the
xref values when present, and the extracted wiki link. -/
def preMeta (n : DONode) (m : NodeMeta) : DONode :=
  { n with
    definition := m.definition.bind DefBlock.val
    definition_xrefs := m.definition.bind DefBlock.xrefs
    deprecated := some (m.deprecated.getD false)
    xrefs := match m.xrefs with | some l => l | none => n.xrefs
    wikilink := (parse_wikilink n.doid (m.definition.bind DefBlock.xrefs)).1 }

/-- Model of `DONode.parse_meta`: populates definition, deprecation, xrefs,
wiki link, namespace/alt-id (with the single-namespace assertion) and
synonyms, exactly in the source's order.  The only failure is the namespace
assertion. -/
def DONode.parse_meta (n : DONode) (m : NodeMeta) : Except String DONode :=
  match applyBPV (preMeta n m) m.basicPropertyValues with
  | .error e => .error e
  | .ok n2 => .ok (applySynonyms n2 m.synonyms)

/-- Model of `DONode.__init__`: build the fresh node and, when a `meta`
block is present, run `parse_meta` on it. -/
def mkDONode (r : RawNode) : Except String DONode :=
  match r.meta with
  | none => .ok (baseNode r)
  | some m => (baseNode r).parse_meta m

/-! ### The `DOGraph` node/edge passes -/

/-- The retention filter of `DOGraph.parse_nodes`:
`tmp_node.namespace == self.default_namespace and not tmp_node.deprecated
and tmp_node.type == "CLASS"` (Python truthiness on `deprecated`). -/
def retain (default : String) (n : DONode) : Bool :=
  decide (n.«namespace» = some default) && !truthyOB n.deprecated
    && decide (n.type = some "CLASS")

/-- Python dictionary update `d[k] = v` on an association list: replace the
first binding of `k`, or append a new binding. -/
def insertNode : List (String × DONode) → String → DONode → List (String × DONode)
  | [], k, v => [(k, v)]
  | p :: rest, k, v => if p.1 = k then (k, v) :: rest else p :: insertNode rest k v

/-- Worker for `parse_nodes`: iterate the raw entries, keeping the retained
ones in the nodes mapping. -/
def parse_nodes_aux (default : String) :
    List RawNode → List (String × DONode) → Except String (List (String × DONode))
  | [], acc => .ok acc
  | r :: rest, acc =>
    match mkDONode r with
    | .error e => .error e
    | .ok n =>
      if retain default n then parse_nodes_aux default rest (insertNode acc n.id n)
      else parse_nodes_aux default rest acc

/-- Model of `DOGraph.parse_nodes`. -/
def parse_nodes (default : String) (raws : List RawNode) :
    Except String (List (String × DONode)) :=
  parse_nodes_aux default raws []

/-- Append one relationship to every binding of `sub` in the mapping
(`self.nodes[edge['sub']].add_relationship(edge['pred'], edge['obj'])`). -/
def add_rel (m : List (String × DONode)) (s pr ob : String) : List (String × DONode) :=
  m.map (fun p =>
    if p.1 = s then (p.1, { p.2 with relationships := p.2.relationships ++ [(pr, ob)] })
    else p)

/-- Model of `DOGraph.parse_edges`: edges whose subject is not a retained
node are skipped; the rest are appended to the subject's relationships. -/
def parse_edges : List (String × DONode) → List RawEdge → List (String × DONode)
  | m, [] => m
  | m, e :: rest =>
    parse_edges (if m.any (fun p => p.1 = e.sub) then add_rel m e.sub e.pred e.obj else m) rest

/-- The truthy wiki links of the mapping, as counted by
`Counter([x.wikilink for x in self.nodes.values() if x.wikilink])`
(both `None` and `""` are filtered out by the truthiness test). -/
def truthyLinks (m : List (String × DONode)) : List String :=
  m.filterMap (fun p =>
    match p.2.wikilink with
    | some w => if w = "" then none else some w
    | none => none)

/-- Model of `DOGraph.dedupe_wikilinks`: clear `wikilink` on every node whose
(truthy) wiki link occurs on more than one node. -/
def dedupe_wikilinks (m : List (String × DONode)) : List (String × DONode) :=
  let links := truthyLinks m
  m.map (fun p =>
    match p.2.wikilink with
    | some w => if 1 < links.count w then (p.1, { p.2 with wikilink := none }) else p
    | none => p)

/-- The node mapping produced by graph construction: `parse_nodes`, then
`parse_edges`, then `dedupe_wikilinks`, in the order `DOGraph.__init__`
runs them. -/
def buildNodes (default : String) (raws : List RawNode) (edges : List RawEdge) :
    Except String (List (String × DONode)) :=
  match parse_nodes default raws with
  | .error e => .error e
  | .ok m => .ok (dedupe_wikilinks (parse_edges m edges))

/-! ### Statement building (`DOGraph.create_release`, `create_ref_statement`,
`DONode.create_xref_statements`, `create_main_statements`, `create`) -/

/-- One reference fragment (a `wdi_core` datatype with `is_reference=True`). -/
inductive RefFrag
  | itemID (value prop : String)
  | externalID (value prop : String)
  | time (value prop : String)
  | url (value prop : String)
deriving DecidableEq

/-- One produced statement (a `wdi_core` datatype with its value, property
and reference blocks). -/
inductive Stmt
  | externalID (value prop : String) (refs : List (List RefFrag))
  | itemID (value prop : String) (refs : List (List RefFrag))
  | strVal (value prop : String) (refs : List (List RefFrag))
deriving DecidableEq

/-- The class-level `DOGraph.xref_prop` table (xref prefix → external-ID
property). -/
def xref_prop : List (String × String) :=
  [("ORDO", "P1550"), ("UMLS_CUI", "P2892"), ("DOID", "P699"), ("ICD10CM", "P494"),
   ("ICD9CM", "P493"), ("MSH", "P486"), ("NCI", "P1748"), ("OMIM", "P492")]

/-- The class-level `DOGraph.edge_prop` table (predicate IRI → relationship
property). -/
def edge_prop : List (String × String) :=
  [("http://purl.obolibrary.org/obo/IDO_0000664", "P828"),
   ("http://purl.obolibrary.org/obo/RO_0001025", "P276"),
   ("is_a", "P279")]

/-- Model of `DOGraph.create_release` given the external client's
`get_or_create` answer: a truthy item id is memoized, a falsy one raises
`ValueError("unable to create release")`. -/
def relFromClient (client : Option String) : Except String (String × Option String) :=
  match client with
  | some q => if q ≠ "" then .ok (q, some q) else .error "unable to create release"
  | none => .error "unable to create release"

/-- The memoized release lookup at the head of `create_ref_statement`
(`if not self.release: self.create_release()`), threading the graph's
`release` field explicitly. -/
def getRelease (client : Option String) (rel : Option String) :
    Except String (String × Option String) :=
  match rel with
  | some r => if r ≠ "" then .ok (r, some r) else relFromClient client
  | none => relFromClient client

/-- Model of `DOGraph.create_ref_statement`: stated-in the release item,
retrieval timestamp (`now`), and the node's DOID, in the source's order. -/
def create_ref_statement (release doid now : String) : List RefFrag :=
  [RefFrag.itemID release "P248", RefFrag.time now "P813",
   RefFrag.externalID doid "P699"]

/-- The loop body of `DONode.create_xref_statements`: each xref is split at
its first `:`; an xref with no `:` raises (the Python two-variable unpacking
of `split(":", 1)` fails); recognized prefixes yield an external-ID
statement, unrecognized ones are dropped with no diagnostic. -/
def xrefLoop (ref : List RefFrag) : List String → Except String (List Stmt)
  | [] => .ok []
  | x :: rest =>
    match splitFirst ':' x.data with
    | none => .error "not enough values to unpack"
    | some pc =>
      match xrefLoop ref rest with
      | .error e => .error e
      | .ok tail =>
        match List.lookup (⟨pc.1⟩ : String) xref_prop with
        | some prop => .ok (Stmt.externalID ⟨pc.2⟩ prop [ref] :: tail)
        | none => .ok tail

/-- Model of `DONode.create_xref_statements`: the node's own DOID as a P699
external-ID statement, followed by one statement per recognized xref. -/
def create_xref_statements (doid : String) (xrefs : List String) (ref : List RefFrag) :
    Except String (List Stmt) :=
  match xrefLoop ref xrefs with
  | .error e => .error e
  | .ok l => .ok (Stmt.externalID doid "P699" [ref] :: l)

/-- The relationship loop of `DONode.create_main_statements`: unknown
predicates and unknown objects are skipped with a printed diagnostic
(returned here as warning strings); the rest become item statements. -/
def relLoop (ref : List RefFrag) (purl : List (String × String)) :
    List (String × String) → List Stmt × List String
  | [] => ([], [])
  | (pred, obj) :: rest =>
    let r := relLoop ref purl rest
    match List.lookup pred edge_prop with
    | none => (r.1, ("unknown relationship: " ++ pred) :: r.2)
    | some prop =>
      match List.lookup obj purl with
      | none => (r.1, ("unknown obj: " ++ obj) :: r.2)
      | some q => (Stmt.itemID q prop [ref] :: r.1, r.2)

/-- The fixed MIRIAM registry reference block used by the resolver-URL
exact-match statement. -/
def miriam_ref : List RefFrag :=
  [RefFrag.itemID "Q16335166" "P248",
   RefFrag.url "http://www.ebi.ac.uk/miriam/main/collections/MIR:00000233" "P854"]

/-- Model of `DONode.create_main_statements` given the class-level
`doid_purl_wdid` mapping `purl`: relationship statements, the exact-match of
the node's own IRI, instance-of-disease unless the node is the root
`DOID:4`, and the identifiers.org exact-match with the MIRIAM reference. -/
def create_main_statements (purl : List (String × String)) (n : DONode)
    (ref : List RefFrag) : List Stmt × List String :=
  let r := relLoop ref purl n.relationships
  let s1 := r.1 ++ [Stmt.strVal n.id "P2888" [ref]]
  let s2 := s1 ++ (if n.doid ≠ "DOID:4" then [Stmt.itemID "Q12136" "P31" [ref]] else [])
  (s2 ++ [Stmt.strVal ("http://identifiers.org/doid/" ++ n.doid) "P2888" [miriam_ref]], r.2)

/-- The three placeholder descriptions of the description policy, lowercased:
`{"", "human disease", "disease"}`. -/
def genericDescr (s : String) : Prop :=
  strLower s = "" ∨ strLower s = "human disease" ∨ strLower s = "disease"

instance (s : String) : Decidable (genericDescr s) := by
  unfold genericDescr; infer_instance

/-- The description update of `DONode.create` (source lines 220–225): a
placeholder description is replaced by the node's definition when the
definition is truthy and shorter than 250 characters; an empty description
otherwise falls back to `"human disease"`; anything else is kept. -/
def new_description (current : String) (definition : Option String) : String :=
  if genericDescr current ∧ (pyTruthyStr definition
      && decide ((definition.getD "").length < 250)) = true then
    definition.getD ""
  else if strLower current = "" then "human disease"
  else current

/-- The outcome of one `DONode.create` call: deprecated nodes return
immediately; an exception anywhere in the statement-building sequence is
caught and logged (`wdi_core.WDItemEngine.log("ERROR", ...)`); otherwise the
built statements go to the external write. -/
inductive Outcome
  | skipped
  | created (stmts : List Stmt)
  | logged (msg : String)
deriving DecidableEq

/-- Model of `DONode.create`: the whole statement-building sequence sits in a
`try`/`except Exception` block, so any failure — including the release
`ValueError` — becomes a logged per-node error.  The graph's memoized
`release` field is threaded through (it survives across nodes). -/
def nodeCreate (client : Option String) (now : String) (purl : List (String × String))
    (rel : Option String) (n : DONode) : Outcome × Option String :=
  if truthyOB n.deprecated then (Outcome.skipped, rel)
  else
    match getRelease client rel with
    | .error e => (Outcome.logged e, rel)
    | .ok (r, rel2) =>
      let ref := create_ref_statement r n.doid now
      match create_xref_statements n.doid n.xrefs ref with
      | .error e => (Outcome.logged e, rel2)
      | .ok sx =>
        let sm := create_main_statements purl n ref
        (Outcome.created (sx ++ sm.1), rel2)

/-- Worker for `runAll`, threading the memoized release. -/
def runAllAux (client : Option String) (now : String) (purl : List (String × String)) :
    Option String → List DONode → List Outcome
  | _, [] => []
  | rel, n :: rest =>
    let r := nodeCreate client now purl rel n
    r.1 :: runAllAux client now purl r.2 rest

/-- Model of the synchronization loop of `main`: call `create` on every
retained node in order, starting with no release record. -/
def runAll (client : Option String) (now : String) (purl : List (String × String))
    (nodes : List DONode) : List Outcome :=
  runAllAux client now purl none nodes

/-! ### Derived notions used to state the claims -/

/-- The retention condition exactly as the specification words it: type is
`"CLASS"`, the deprecated flag is `false`, and the namespace equals the
graph's default namespace. -/
def claimCond (d : String) (n : DONode) : Prop :=
  n.type = some "CLASS" ∧ n.deprecated = some false ∧ n.«namespace» = some d

instance (d : String) (n : DONode) : Decidable (claimCond d n) := by
  unfold claimCond; infer_instance

/-- The relationship pairs an edge list contributes to the node keyed `k`:
the edges whose subject is `k`, as `(pred, obj)` pairs, in order. -/
def ownEdges (edges : List RawEdge) (k : String) : List (String × String) :=
  (edges.filter (fun e => e.sub = k)).map (fun e => (e.pred, e.obj))

/-! ### Concrete inputs used by witnesses and counterexamples -/

/-- A raw node with no `meta` block at all. -/
def rawNoMeta : RawNode :=
  ⟨"http://purl.obolibrary.org/obo/DOID_2", none, some "CLASS", none⟩

/-- A raw node whose meta carries exactly one namespace value. -/
def rawGood : RawNode :=
  ⟨"http://purl.obolibrary.org/obo/DOID_1", some "disease A", some "CLASS",
    some ⟨none, none, none, some [⟨hasOBONamespace, "disease_ontology"⟩], none⟩⟩

/-- The node parsed from `rawGood`. -/
def nodeGood : DONode := ((mkDONode rawGood).toOption).getD (baseNode rawGood)

/-- The mapping built from `rawGood` and `rawNoMeta` with no edges. -/
def mGood : List (String × DONode) :=
  ((buildNodes "disease_ontology" [rawGood, rawNoMeta] []).toOption).getD []

/-- A meta block whose `basicPropertyValues` hold one namespace value. -/
def metaNs1 : NodeMeta :=
  ⟨none, none, none, some [⟨hasOBONamespace, "disease_ontology"⟩], none⟩

/-- A meta block with a definition but no `basicPropertyValues` key. -/
def metaNoBPV : NodeMeta :=
  ⟨some ⟨some "a deadly disease", none⟩, none, none, none, none⟩

/-- A plain non-deprecated node used to drive the create/run model. -/
def plainNode (i : String) : DONode :=
  { baseNode ⟨i, none, some "CLASS", none⟩ with deprecated := some false }

/-- A node with a prescribed wiki link. -/
def linkNode (i : String) (w : Option String) : DONode :=
  { baseNode ⟨i, none, some "CLASS", none⟩ with wikilink := w }

/-- A sample node pair holding a uniquely-held wiki link. -/
def pairW : String × DONode := ("a", linkNode "a" (some "W"))

/-! ## Supporting lemmas -/

/-- Indexing commutes with `map` (association-list positional access). -/
theorem getq_map {α β : Type} (f : α → β) (l : List α) (i : Nat) :
    (l.map f)[i]? = (l[i]?).map f := by
  induction l generalizing i with
  | nil => simp
  | cons a rest ih => cases i <;> simp [ih]

/-- A successful positional access yields a member. -/
theorem mem_of_getq {α : Type} {l : List α} {i : Nat} {a : α}
    (h : l[i]? = some a) : a ∈ l := by
  induction l generalizing i with
  | nil => simp at h
  | cons b rest ih =>
    cases i with
    | zero => simp at h; simp [h]
    | succ j => exact List.mem_cons_of_mem _ (ih (by simpa using h))

/-- Every member is reachable by a positional access. -/
theorem getq_of_mem {α : Type} {l : List α} {a : α} (h : a ∈ l) :
    ∃ i : Nat, l[i]? = some a := by
  induction l with
  | nil => cases h
  | cons b rest ih =>
    rcases List.mem_cons.1 h with h1 | h2
    · exact ⟨0, by simp [h1]⟩
    · obtain ⟨i, hi⟩ := ih h2
      exact ⟨i + 1, by simpa using hi⟩

/-- Lowercasing is the identity on the empty string only. -/
theorem strLower_eq_empty {s : String} : strLower s = "" ↔ s = "" := by
  cases s with
  | mk data =>
    simp [strLower, String.ext_iff]

/-- Truthiness of a present string is its non-emptiness. -/
theorem pyTruthyStr_some {d : String} : pyTruthyStr (some d) = true ↔ d ≠ "" := by
  cases d with
  | mk data => simp [pyTruthyStr, String.ext_iff]

/-- The synonyms block touches only the three synonym fields. -/
theorem applySynonyms_frame (n : DONode) (s : Option (List SynEntry)) :
    (applySynonyms n s).deprecated = n.deprecated ∧ (applySynonyms n s).type = n.type
    ∧ (applySynonyms n s).id = n.id ∧ (applySynonyms n s).«namespace» = n.«namespace» := by
  cases s <;> exact ⟨rfl, rfl, rfl, rfl⟩

/-- A successful `basicPropertyValues` pass leaves deprecation, type and id
unchanged. -/
theorem applyBPV_frame {n n2 : DONode} {b : Option (List BPV)}
    (h : applyBPV n b = .ok n2) :
    n2.deprecated = n.deprecated ∧ n2.type = n.type ∧ n2.id = n.id := by
  cases b with
  | none =>
    simp [applyBPV] at h
    subst h
    exact ⟨rfl, rfl, rfl⟩
  | some l =>
    by_cases hl : (nsDistinct l).length = 1
    · simp [applyBPV, hl] at h
      subst h
      exact ⟨rfl, rfl, rfl⟩
    · simp [applyBPV, hl] at h

/-- The unconditional meta pass sets `deprecated` and keeps `type` and
`id`. -/
theorem preMeta_core (n : DONode) (m : NodeMeta) :
    (preMeta n m).deprecated = some (m.deprecated.getD false)
    ∧ (preMeta n m).type = n.type ∧ (preMeta n m).id = n.id :=
  ⟨rfl, rfl, rfl⟩

/-- A successful `parse_meta` sets `deprecated` to the meta's flag
(defaulting to `false`), and keeps `type` and `id`. -/
theorem parse_meta_core {n0 n : DONode} {mt : NodeMeta}
    (h : n0.parse_meta mt = .ok n) :
    n.deprecated = some (mt.deprecated.getD false) ∧ n.type = n0.type ∧ n.id = n0.id := by
  cases hb : applyBPV (preMeta n0 mt) mt.basicPropertyValues with
  | error e =>
    rw [DONode.parse_meta, hb] at h
    cases h
  | ok n2 =>
    rw [DONode.parse_meta, hb] at h
    simp only [Except.ok.injEq] at h
    subst h
    obtain ⟨hd, ht, hi⟩ := applyBPV_frame hb
    obtain ⟨pd, pt, pi⟩ := preMeta_core n0 mt
    obtain ⟨sd, st, si, _⟩ := applySynonyms_frame n2 mt.synonyms
    refine ⟨?_, ?_, ?_⟩
    · rw [sd, hd, pd]
    · rw [st, ht, pt]
    · rw [si, hi, pi]

/-- A parsed node keeps the raw entry's id. -/
theorem mkDONode_id {r : RawNode} {n : DONode} (h : mkDONode r = .ok n) :
    n.id = r.id := by
  obtain ⟨i, lb, ty, mo⟩ := r
  cases mo with
  | none =>
    simp [mkDONode] at h
    subst h
    rfl
  | some mt =>
    simp only [mkDONode] at h
    exact (parse_meta_core h).2.2

/-- A node built by `mkDONode` either went through no meta block (namespace
and deprecated both unset) or has a definite deprecated flag. -/
theorem mkDONode_shape {r : RawNode} {n : DONode} (h : mkDONode r = .ok n) :
    (n.«namespace» = none ∧ n.deprecated = none) ∨ (∃ b, n.deprecated = some b) := by
  obtain ⟨i, lb, ty, mo⟩ := r
  cases mo with
  | none =>
    simp [mkDONode] at h
    subst h
    exact Or.inl ⟨rfl, rfl⟩
  | some mt =>
    simp only [mkDONode] at h
    exact Or.inr ⟨_, (parse_meta_core h).1⟩

/-- On nodes produced by `mkDONode`, the source's retention test coincides
with the specification's three conditions. -/
theorem retain_iff {d : String} {r : RawNode} {n : DONode}
    (h : mkDONode r = .ok n) : retain d n = true ↔ claimCond d n := by
  rcases mkDONode_shape h with ⟨hns, _⟩ | ⟨b, hb⟩
  · simp [retain, claimCond, hns]
  · have hd : n.deprecated.getD false = b := by rw [hb]; rfl
    simp only [retain, claimCond, hb, truthyOB, Bool.and_eq_true, decide_eq_true_eq,
      Bool.not_eq_true', Option.some.injEq]
    tauto

/-- Key membership after a dictionary update: the old keys plus the new
key. -/
theorem insert_keys_mem (k0 : String) (v : DONode) :
    ∀ (acc : List (String × DONode)) (k : String),
      k ∈ (insertNode acc k0 v).map Prod.fst ↔ k ∈ acc.map Prod.fst ∨ k = k0 := by
  intro acc
  induction acc with
  | nil => intro k; simp [insertNode]
  | cons p rest ih =>
    intro k
    by_cases hp : p.1 = k0
    · simp [insertNode, hp]
      tauto
    · simp [insertNode, hp, ih]
      tauto

/-- Every entry of an updated dictionary is an old entry or the new
binding. -/
theorem insert_mem {q : String × DONode} (k0 : String) (v : DONode) :
    ∀ acc, q ∈ insertNode acc k0 v → q ∈ acc ∨ q = (k0, v) := by
  intro acc
  induction acc with
  | nil => intro h; simp [insertNode] at h; simp [h]
  | cons p rest ih =>
    intro h
    by_cases hp : p.1 = k0
    · simp [insertNode, hp] at h
      rcases h with h | h
      · exact Or.inr (by simp [h])
      · exact Or.inl (List.mem_cons_of_mem _ h)
    · simp [insertNode, hp] at h
      rcases h with h | h
      · exact Or.inl (by simp [h])
      · rcases ih h with h2 | h2
        · exact Or.inl (List.mem_cons_of_mem _ h2)
        · exact Or.inr h2

/-- Membership in the keys of the mapping built by the node pass: exactly
the ids of the raw entries whose node was constructed and retained (plus the
keys of the accumulator). -/
theorem parse_nodes_aux_mem (d : String) :
    ∀ (rs : List RawNode) (acc m : List (String × DONode)),
      parse_nodes_aux d rs acc = .ok m →
      ∀ k, k ∈ m.map Prod.fst ↔
        (k ∈ acc.map Prod.fst ∨
          ∃ r ∈ rs, ∃ n, mkDONode r = .ok n ∧ retain d n = true ∧ n.id = k) := by
  intro rs
  induction rs with
  | nil =>
    intro acc m h k
    simp [parse_nodes_aux] at h
    subst h
    simp
  | cons r rest ih =>
    intro acc m h k
    rw [parse_nodes_aux] at h
    split at h
    · cases h
    · next n hmk =>
      by_cases hr : retain d n = true
      · rw [if_pos hr] at h
        rw [ih _ _ h k, insert_keys_mem]
        constructor
        · rintro ((h1 | h1) | ⟨r2, hr2, n2, h2⟩)
          · exact Or.inl h1
          · exact Or.inr ⟨r, List.mem_cons_self _ _, n, hmk, hr, h1.symm⟩
          · exact Or.inr ⟨r2, List.mem_cons_of_mem _ hr2, n2, h2⟩
        · rintro (h1 | ⟨r2, hr2, n2, h2, h3, h4⟩)
          · exact Or.inl (Or.inl h1)
          · rcases List.mem_cons.1 hr2 with hr3 | hr3
            · subst hr3
              have hn : n = n2 := by
                rw [hmk] at h2
                exact Except.ok.inj h2
              subst hn
              exact Or.inl (Or.inr h4.symm)
            · exact Or.inr ⟨r2, hr3, n2, h2, h3, h4⟩
      · rw [if_neg hr] at h
        rw [ih _ _ h k]
        constructor
        · rintro (h1 | ⟨r2, hr2, n2, h2⟩)
          · exact Or.inl h1
          · exact Or.inr ⟨r2, List.mem_cons_of_mem _ hr2, n2, h2⟩
        · rintro (h1 | ⟨r2, hr2, n2, h2, h3, h4⟩)
          · exact Or.inl h1
          · rcases List.mem_cons.1 hr2 with hr3 | hr3
            · subst hr3
              have hn : n = n2 := by
                rw [hmk] at h2
                exact Except.ok.inj h2
              subst hn
              exact absurd h3 hr
            · exact Or.inr ⟨r2, hr3, n2, h2, h3, h4⟩

/-- Invariant preservation over the node pass: any property that holds of
the accumulator entries and of every retained freshly-parsed binding holds
of every entry of the result. -/
theorem parse_nodes_aux_inv (d : String) (P : String × DONode → Prop) :
    ∀ (rs : List RawNode) (acc m : List (String × DONode)),
      parse_nodes_aux d rs acc = .ok m →
      (∀ p ∈ acc, P p) →
      (∀ r ∈ rs, ∀ n, mkDONode r = .ok n → retain d n = true → P (n.id, n)) →
      ∀ p ∈ m, P p := by
  intro rs
  induction rs with
  | nil =>
    intro acc m h hacc _ p hp
    simp [parse_nodes_aux] at h
    subst h
    exact hacc p hp
  | cons r rest ih =>
    intro acc m h hacc hins p hp
    rw [parse_nodes_aux] at h
    split at h
    · cases h
    · next n hmk =>
      by_cases hr : retain d n = true
      · rw [if_pos hr] at h
        refine ih _ _ h ?_ ?_ p hp
        · intro q hq
          rcases insert_mem n.id n acc hq with h2 | h2
          · exact hacc q h2
          · subst h2
            exact hins r (List.mem_cons_self _ _) n hmk hr
        · intro r2 hr2 n2 h2 h3
          exact hins r2 (List.mem_cons_of_mem _ hr2) n2 h2 h3
      · rw [if_neg hr] at h
        refine ih _ _ h hacc ?_ p hp
        intro r2 hr2 n2 h2 h3
        exact hins r2 (List.mem_cons_of_mem _ hr2) n2 h2 h3

/-- Relationship attachment acts positionally: the pair at index `i` keeps
its key and either gains the new pair (when its key is the edge subject) or
is unchanged. -/
theorem add_rel_getq (m : List (String × DONode)) (s pr ob : String) (i : Nat) :
    (add_rel m s pr ob)[i]? = (m[i]?).map (fun p =>
      if p.1 = s then (p.1, { p.2 with relationships := p.2.relationships ++ [(pr, ob)] })
      else p) := by
  unfold add_rel
  exact getq_map _ m i

/-- Relationship attachment preserves the key list. -/
theorem add_rel_keys (m : List (String × DONode)) (s pr ob : String) :
    (add_rel m s pr ob).map Prod.fst = m.map Prod.fst := by
  unfold add_rel
  rw [List.map_map]
  apply List.map_congr_left
  intro p _
  by_cases hp : p.1 = s <;> simp [hp]

/-- The edge pass preserves the key list. -/
theorem parse_edges_keys : ∀ (edges : List RawEdge) (m : List (String × DONode)),
    (parse_edges m edges).map Prod.fst = m.map Prod.fst := by
  intro edges
  induction edges with
  | nil => intro m; rfl
  | cons e rest ih =>
    intro m
    rw [parse_edges]
    by_cases ha : m.any (fun p => p.1 = e.sub) = true
    · rw [if_pos ha, ih, add_rel_keys]
    · rw [if_neg ha, ih]

/-- Positional characterization of the edge pass: the entry at index `i`
keeps its key and its relationships grow by exactly the `(pred, obj)` pairs
of the edges whose subject is that key, in input order. -/
theorem parse_edges_getq : ∀ (edges : List RawEdge) (m : List (String × DONode)) (i : Nat),
    (parse_edges m edges)[i]? = (m[i]?).map (fun p =>
      (p.1, { p.2 with relationships := p.2.relationships ++ ownEdges edges p.1 })) := by
  intro edges
  induction edges with
  | nil =>
    intro m i
    rw [parse_edges]
    cases hm : m[i]? with
    | none => simp
    | some p => simp [ownEdges]
  | cons e rest ih =>
    intro m i
    rw [parse_edges]
    by_cases ha : m.any (fun p => p.1 = e.sub) = true
    · rw [if_pos ha, ih, add_rel_getq]
      cases hm : m[i]? with
      | none => simp
      | some p =>
        simp only [Option.map_some']
        by_cases hp : p.1 = e.sub
        · simp only [if_pos hp, ownEdges, List.filter_cons, hp, decide_True,
            List.map_cons, Option.some.injEq]
          refine congrArg _ ?_
          congr 1
          simp [ownEdges, List.append_assoc]
        · have hp2 : ¬(e.sub = p.1) := fun hx => hp hx.symm
          simp [if_neg hp, ownEdges, List.filter_cons, hp2]
    · rw [if_neg ha, ih]
      cases hm : m[i]? with
      | none => simp
      | some p =>
        have hp : ¬(p.1 = e.sub) := by
          intro hps
          apply ha
          rw [List.any_eq_true]
          exact ⟨p, mem_of_getq hm, by simp [hps]⟩
        have hp2 : ¬(e.sub = p.1) := fun hx => hp hx.symm
        simp [ownEdges, List.filter_cons, hp2]

/-- Every entry after the edge pass comes from an entry of the input mapping
with the same key and all fields except `relationships` unchanged. -/
theorem parse_edges_fields {m : List (String × DONode)} {edges : List RawEdge}
    {p : String × DONode} (hp : p ∈ parse_edges m edges) :
    ∃ q ∈ m, p.1 = q.1 ∧ p.2.id = q.2.id ∧ p.2.type = q.2.type
      ∧ p.2.deprecated = q.2.deprecated ∧ p.2.«namespace» = q.2.«namespace» := by
  obtain ⟨i, hi⟩ := getq_of_mem hp
  rw [parse_edges_getq] at hi
  cases hm : m[i]? with
  | none => rw [hm] at hi; cases hi
  | some q =>
    rw [hm] at hi
    simp only [Option.map_some', Option.some.injEq] at hi
    subst hi
    exact ⟨q, mem_of_getq hm, rfl, rfl, rfl, rfl, rfl⟩

/-- The wiki-link dedupe pass preserves the key list. -/
theorem dedupe_keys (m : List (String × DONode)) :
    (dedupe_wikilinks m).map Prod.fst = m.map Prod.fst := by
  unfold dedupe_wikilinks
  rw [List.map_map]
  apply List.map_congr_left
  intro p _
  cases hw : p.2.wikilink with
  | none => simp [hw]
  | some w =>
    by_cases hc : 1 < (truthyLinks m).count w <;> simp [hw, hc]

/-- Every entry after the dedupe pass comes from the entry of the input
mapping at the same position, with the same key and all fields except
`wikilink` unchanged. -/
theorem dedupe_fields {m : List (String × DONode)} {p : String × DONode}
    (hp : p ∈ dedupe_wikilinks m) :
    ∃ q ∈ m, p.1 = q.1 ∧ p.2.id = q.2.id ∧ p.2.type = q.2.type
      ∧ p.2.deprecated = q.2.deprecated ∧ p.2.«namespace» = q.2.«namespace» := by
  unfold dedupe_wikilinks at hp
  obtain ⟨q, hq, hpq⟩ := List.mem_map.1 hp
  subst hpq
  refine ⟨q, hq, ?_⟩
  cases hw : q.2.wikilink with
  | none => simp [hw]
  | some w =>
    by_cases hc : 1 < (truthyLinks m).count w <;> simp [hw, hc]

/-- The truthy-link multiset counts exactly the holders of a non-empty
link value. -/
theorem truthyLinks_count (m : List (String × DONode)) (w : String) (hw : w ≠ "") :
    (truthyLinks m).count w
      = (m.filter (fun q => q.2.wikilink = some w)).length := by
  induction m with
  | nil => rfl
  | cons p rest ih =>
    simp only [truthyLinks, List.filterMap_cons] at ih ⊢
    cases hpw : p.2.wikilink with
    | none =>
      simp [ih, hpw, List.filter_cons]
    | some v =>
      by_cases hv : v = ""
      · subst hv
        simp [ih, hpw, List.filter_cons, Ne.symm hw]
      · by_cases hvw : v = w
        · subst hvw
          simp [ih, hpw, hv, List.filter_cons, List.count_cons]
        · simp [ih, hpw, hv, hvw, List.filter_cons, List.count_cons]

/-- The empty string never occurs among the truthy links. -/
theorem truthyLinks_no_empty (m : List (String × DONode)) :
    "" ∉ truthyLinks m := by
  intro h
  rw [truthyLinks, List.mem_filterMap] at h
  obtain ⟨p, _, hp⟩ := h
  cases hw : p.2.wikilink with
  | none => rw [hw] at hp; cases hp
  | some v =>
    rw [hw] at hp
    by_cases hv : v = ""
    · simp [hv] at hp
    · simp [hv] at hp

/-- Any value occurring among the truthy links is non-empty. -/
theorem truthyLinks_ne_empty {m : List (String × DONode)} {w : String}
    (h : w ∈ truthyLinks m) : w ≠ "" := by
  intro he
  subst he
  exact truthyLinks_no_empty m h

/-- A list containing a separator splits at it. -/
theorem splitFirst_of_contains {c : Char} :
    ∀ {l : List Char}, l.contains c = true → (splitFirst c l).isSome = true := by
  intro l
  induction l with
  | nil => intro h; simp at h
  | cons b rest ih =>
    intro h
    by_cases hb : b = c
    · simp [splitFirst, hb]
    · simp only [List.contains_cons, Bool.or_eq_true, beq_iff_eq] at h
      rcases h with h1 | h1
      · exact absurd h1.symm hb
      · simp only [splitFirst, if_neg hb, Option.isSome_map']
        exact ih h1

/-! ## The claims -/

/-- C2 (counterexample to the claim as stated): with two non-deprecated
nodes and an external client that fails to create the release record, the
synchronization run is NOT aborted — `DONode.create`'s `except Exception`
catches the `ValueError("unable to create release")` raised inside its own
statement-building sequence, logs it per node, and the loop continues to the
second node, which fails the same way. -/
theorem claim2_counterexample :
    runAll none "2026-10-12" [] [plainNode "a", plainNode "b"] =
      [Outcome.logged "unable to create release",
        Outcome.logged "unable to create release"] := by decide

/-- C2 (amended): if creating the shared release record fails, every
non-deprecated node's `create` call raises the `ValueError` inside its
`try` block, catches it, and converts it into a per-node logged error; the
run continues over all nodes (one outcome per node), it is not aborted. -/
theorem claim2_amended (now : String) (purl : List (String × String))
    (nodes : List DONode) :
    runAll none now purl nodes = nodes.map (fun n =>
      if truthyOB n.deprecated then Outcome.skipped
      else Outcome.logged "unable to create release") := by
  rw [runAll]
  induction nodes with
  | nil => rfl
  | cons n rest ih =>
    rw [runAllAux, List.map_cons]
    cases htb : truthyOB n.deprecated with
    | true => simp only [nodeCreate, htb, if_true, ih]
    | false => simp only [nodeCreate, htb, Bool.false_eq_true, if_false, getRelease,
        relFromClient, ih]

/-- C3 (counterexample to the claim as stated): a metadata block with zero
values for the namespace property does not always make parsing fail — when
the block has no `basicPropertyValues` list at all, the namespace assertion
is never reached, parsing succeeds, and the namespace stays unset. -/
theorem claim3_counterexample :
    ((metaNoBPV.basicPropertyValues.getD []).filter
        (fun x => x.pred = hasOBONamespace)).length = 0
    ∧ ((baseNode rawNoMeta).parse_meta metaNoBPV).toOption.map
        (fun x => x.«namespace») = some none := by
  exact ⟨rfl, rfl⟩

/-- C3 (amended): when the metadata block carries a `basicPropertyValues`
list, parsing succeeds if and only if the list holds exactly one distinct
namespace value, in which case the node's namespace is that value; with zero
or two-or-more distinct values the namespace assertion fails.  (A block with
no `basicPropertyValues` list parses successfully with the namespace left
unset, per the counterexample.) -/
theorem claim3_amended (n : DONode) (m : NodeMeta) (l : List BPV)
    (h : m.basicPropertyValues = some l) :
    ((nsDistinct l).length = 1 →
      (n.parse_meta m).toOption.map (fun x => x.«namespace»)
        = some ((nsDistinct l).head?))
    ∧ ((nsDistinct l).length ≠ 1 → n.parse_meta m = .error "AssertionError") := by
  constructor
  · intro h1
    have hb : applyBPV (preMeta n m) m.basicPropertyValues
        = .ok { preMeta n m with
            «namespace» := (nsDistinct l).head?
            alt_id := if l.any (fun x => x.pred = hasAlternativeId)
              then some (altDistinct l) else (preMeta n m).alt_id } := by
      rw [h, applyBPV, if_pos h1]
    rw [DONode.parse_meta, hb]
    cases hs : m.synonyms <;> simp [applySynonyms, Except.toOption]
  · intro h1
    have hb : applyBPV (preMeta n m) m.basicPropertyValues
        = .error "AssertionError" := by
      rw [h, applyBPV, if_neg h1]
    rw [DONode.parse_meta, hb]

/-- C3 (witness): a block with exactly one namespace value parses and
yields that value. -/
theorem claim3_witness :
    (nsDistinct [⟨hasOBONamespace, "disease_ontology"⟩]).length = 1
    ∧ ((baseNode rawNoMeta).parse_meta metaNs1).toOption.map
        (fun x => x.«namespace») = some (some "disease_ontology") :=
  ⟨by decide,
    (claim3_amended (baseNode rawNoMeta) metaNs1 [⟨hasOBONamespace, "disease_ontology"⟩]
      rfl).1 (by decide)⟩

/-- C7 (counterexample to the claim as stated): a node whose definition is
present but empty has "a definition of length strictly less than 250
characters", yet with an empty current description the code does not use it
— Python truthiness rejects the empty definition and the fixed fallback is
written instead. -/
theorem claim7_counterexample :
    new_description "" (some "") = "human disease"
    ∧ ¬ (new_description "" (some "") = "") := by decide

/-- C7 (amended): if the current English description lowercases into
`{"", "disease", "human disease"}` and the node's definition is present,
non-empty and shorter than 250 characters, the description becomes the
definition; an empty current description with no such usable definition gets
the fixed fallback `"human disease"`; a non-empty current description is
kept whenever it is non-generic or there is no usable definition. -/
theorem claim7_amended (current : String) (definition : Option String) :
    (∀ d, definition = some d → d ≠ "" → d.length < 250 → genericDescr current →
      new_description current definition = d)
    ∧ (current = "" →
        (pyTruthyStr definition && decide ((definition.getD "").length < 250)) = false →
        new_description current definition = "human disease")
    ∧ (current ≠ "" → ¬ genericDescr current →
        new_description current definition = current)
    ∧ (current ≠ "" →
        (pyTruthyStr definition && decide ((definition.getD "").length < 250)) = false →
        new_description current definition = current) := by
  refine ⟨?_, ?_, ?_, ?_⟩
  · intro d hd hne hlen hgen
    subst hd
    rw [new_description, if_pos]
    · rfl
    · refine ⟨hgen, ?_⟩
      rw [Bool.and_eq_true, pyTruthyStr_some, decide_eq_true_eq]
      exact ⟨hne, by simpa using hlen⟩
  · intro hc hfalse
    subst hc
    rw [new_description, if_neg, if_pos (strLower_eq_empty.2 rfl)]
    intro hcond
    rw [hfalse] at hcond
    exact Bool.false_ne_true hcond.2
  · intro hne hng
    rw [new_description, if_neg (fun hcond => hng hcond.1), if_neg]
    intro hlow
    exact hne (strLower_eq_empty.1 hlow)
  · intro hne hfalse
    rw [new_description, if_neg, if_neg]
    · intro hlow
      exact hne (strLower_eq_empty.1 hlow)
    · intro hcond
      rw [hfalse] at hcond
      exact Bool.false_ne_true hcond.2

/-- C7 (witness): a generic current description together with a usable
definition is replaced by the definition. -/
theorem claim7_witness : new_description "Disease" (some "a viral infection") = "a viral infection" :=
  (claim7_amended "Disease" (some "a viral infection")).1 "a viral infection" rfl
    (by decide) (by decide) (by decide)

/-- C8: `create_xref_statements` produces exactly the node's own DOID as a
P699 external-ID statement followed by, for each xref whose prefix is in the
fixed `xref_prop` table, one external-ID statement on the mapped property
whose value is the code portion; xrefs with unrecognized prefixes contribute
nothing (and the function contains no diagnostic path at all).  The
hypothesis that each xref contains a `:` separator reflects the data model
(`xrefs` is a list of `PREFIX:CODE` strings); a colon-free xref would
instead raise an unpacking error. -/
theorem claim8_xrefs (doid : String) (xrefs : List String) (ref : List RefFrag)
    (h : ∀ x ∈ xrefs, x.data.contains ':' = true) :
    create_xref_statements doid xrefs ref =
      .ok (Stmt.externalID doid "P699" [ref] ::
        xrefs.filterMap (fun x =>
          match splitFirst ':' x.data with
          | none => none
          | some pc => (List.lookup (⟨pc.1⟩ : String) xref_prop).map
              (fun prop => Stmt.externalID ⟨pc.2⟩ prop [ref]))) := by
  have hloop : xrefLoop ref xrefs = .ok (xrefs.filterMap (fun x =>
      match splitFirst ':' x.data with
      | none => none
      | some pc => (List.lookup (⟨pc.1⟩ : String) xref_prop).map
          (fun prop => Stmt.externalID ⟨pc.2⟩ prop [ref]))) := by
    induction xrefs with
    | nil => rfl
    | cons x rest ih =>
      have hx := h x (List.mem_cons_self _ _)
      obtain ⟨pc, hpc⟩ := Option.isSome_iff_exists.1 (splitFirst_of_contains hx)
      have hrest := ih (fun y hy => h y (List.mem_cons_of_mem _ hy))
      rw [xrefLoop, hpc, hrest, List.filterMap_cons, hpc]
      cases hlk : List.lookup (⟨pc.1⟩ : String) xref_prop <;> simp [hlk]
  rw [create_xref_statements, hloop]

/-- C8 (witness): one recognized and one unrecognized xref. -/
theorem claim8_witness :
    create_xref_statements "DOID:1" ["ICD10CM:A00", "SNOMEDCT_US_2016_03_01:74400008"] [] =
      .ok [Stmt.externalID "DOID:1" "P699" [[]], Stmt.externalID "A00" "P494" [[]]] := by
  have h := claim8_xrefs "DOID:1" ["ICD10CM:A00", "SNOMEDCT_US_2016_03_01:74400008"] []
    (by decide)
  exact h.trans (congrArg Except.ok (by decide))

/-- C10: a raw node entry with no `meta` block constructs without error,
with namespace and deprecated both left unset (`None`, not `false`) — the
namespace single-value assertion is never reached — and such a node is never
retained, whatever the graph's default namespace: the retention test is
false and the node pass on it yields an empty mapping. -/
theorem claim10_no_meta (r : RawNode) (h : r.meta = none) (d : String) :
    mkDONode r = .ok (baseNode r) ∧ (baseNode r).«namespace» = none
    ∧ (baseNode r).deprecated = none ∧ retain d (baseNode r) = false
    ∧ parse_nodes d [r] = .ok [] := by
  have hmk : mkDONode r = .ok (baseNode r) := by
    obtain ⟨i, lb, ty, mo⟩ := r
    cases mo with
    | none => rfl
    | some mt => cases h
  have hret : retain d (baseNode r) = false := by
    simp [retain, baseNode]
  refine ⟨hmk, rfl, rfl, hret, ?_⟩
  rw [parse_nodes, parse_nodes_aux, hmk]
  simp only [hret, Bool.false_eq_true, if_false]
  rfl

/-- C10 (witness): the concrete meta-less raw node. -/
theorem claim10_witness :
    mkDONode rawNoMeta = .ok (baseNode rawNoMeta)
    ∧ (baseNode rawNoMeta).«namespace» = none
    ∧ (baseNode rawNoMeta).deprecated = none
    ∧ retain "disease_ontology" (baseNode rawNoMeta) = false
    ∧ parse_nodes "disease_ontology" [rawNoMeta] = .ok [] :=
  claim10_no_meta rawNoMeta rfl "disease_ontology"

/-- C4: wiki-link extraction from the definition xrefs.  With no xref list
the link is unset; with exactly one entry matching the wiki URL pattern the
link is the extracted percent-decoded title, unless that title contains a
`#` fragment, in which case the link stays unset; with zero matching entries
the link stays unset; with two or more matching entries the link stays unset
and only a warning is emitted (the function is total — there is no error
path). -/
theorem claim4_wikilink (doid : String) (xs : List String) :
    ((parse_wikilink doid none).1 = none)
    ∧ (∀ x, wikiMatches xs = [x] → (wikiTitle x).data.contains '#' = false →
        parse_wikilink doid (some xs) = (some (wikiTitle x), []))
    ∧ (∀ x, wikiMatches xs = [x] → (wikiTitle x).data.contains '#' = true →
        parse_wikilink doid (some xs) = (none, []))
    ∧ (wikiMatches xs = [] → parse_wikilink doid (some xs) = (none, []))
    ∧ (1 < (wikiMatches xs).length →
        parse_wikilink doid (some xs) = (none, [doid ++ " multiple wikilinks"])) := by
  refine ⟨rfl, ?_, ?_, ?_, ?_⟩
  · intro x hm hc
    have hxs : xs.isEmpty = false := by
      cases xs with
      | nil => simp [wikiMatches] at hm
      | cons a r => rfl
    rw [parse_wikilink]
    simp only [hxs, Bool.false_eq_true, if_false, hm]
    simp [hc]
    simpa using hc
  · intro x hm hc
    have hxs : xs.isEmpty = false := by
      cases xs with
      | nil => simp [wikiMatches] at hm
      | cons a r => rfl
    rw [parse_wikilink]
    simp only [hxs, Bool.false_eq_true, if_false, hm]
    simp [hc]
    simpa using hc
  · intro hm
    cases hxs : xs.isEmpty with
    | true => rw [parse_wikilink]; simp [hxs]
    | false =>
      rw [parse_wikilink]
      simp only [hxs, Bool.false_eq_true, if_false, hm]
      simp
  · intro hlen
    have hxs : xs.isEmpty = false := by
      cases xs with
      | nil => simp [wikiMatches] at hlen
      | cons a r => rfl
    rw [parse_wikilink]
    simp only [hxs, Bool.false_eq_true, if_false]
    rw [if_pos hlen]

/-- C4 (witness): a single matching xref with a percent-escape and no
fragment yields the decoded title. -/
theorem claim4_witness :
    parse_wikilink "DOID:1" (some ["url:http://en.wikipedia.org/wiki/Fo%20o"])
      = (some "Fo o", []) := by
  have h := (claim4_wikilink "DOID:1" ["url:http://en.wikipedia.org/wiki/Fo%20o"]).2.1
    "url:http://en.wikipedia.org/wiki/Fo%20o" (by decide) (by decide)
  exact h.trans (by decide)

/-- C5 (counterexample to the claim as stated): the empty string is a
non-null wiki-link value; when two nodes share it, the dedupe pass clears
neither of them — the Python truthiness filter excludes `""` from the
duplicate counter, so the claim's "every non-null shared value is cleared on
all holders" fails on it. -/
theorem claim5_counterexample :
    [("a", linkNode "a" (some "")), ("b", linkNode "b" (some ""))].map
        (fun p => p.2.wikilink) = [some "", some ""]
    ∧ (dedupe_wikilinks [("a", linkNode "a" (some "")), ("b", linkNode "b" (some ""))]).map
        (fun p => p.2.wikilink) = [some "", some ""] := by decide

/-- C5 (amended): the dedupe pass clears the wiki link of every node whose
non-null, non-EMPTY link value is held by more than one node; a link value
held by exactly one node is preserved unchanged; an empty-string link value
is always preserved, even when shared (it is excluded from the duplicate
counter by Python truthiness). -/
theorem claim5_dedupe (m : List (String × DONode)) (i : Nat) (p : String × DONode)
    (hp : m[i]? = some p) :
    (∀ w, p.2.wikilink = some w → w ≠ "" →
        1 < (m.filter (fun q => q.2.wikilink = some w)).length →
        (dedupe_wikilinks m)[i]? = some (p.1, { p.2 with wikilink := none }))
    ∧ (∀ w, p.2.wikilink = some w →
        (m.filter (fun q => q.2.wikilink = some w)).length = 1 →
        (dedupe_wikilinks m)[i]? = some p)
    ∧ (∀ w, p.2.wikilink = some w → w = "" → (dedupe_wikilinks m)[i]? = some p) := by
  have hd : (dedupe_wikilinks m)[i]? = (m[i]?).map (fun p =>
      match p.2.wikilink with
      | some w => if 1 < (truthyLinks m).count w then (p.1, { p.2 with wikilink := none }) else p
      | none => p) := by
    rw [dedupe_wikilinks]
    exact getq_map _ m i
  rw [hp, Option.map_some'] at hd
  refine ⟨?_, ?_, ?_⟩
  · intro w hw hne hcount
    rw [hd]
    simp only [hw]
    rw [if_pos (by rw [truthyLinks_count m w hne]; exact hcount)]
  · intro w hw hcount
    rw [hd]
    simp only [hw]
    by_cases hne : w = ""
    · subst hne
      rw [if_neg]
      rw [List.count_eq_zero.2 (truthyLinks_no_empty m)]
      omega
    · rw [if_neg]
      rw [truthyLinks_count m w hne, hcount]
      omega
  · intro w hw hne
    subst hne
    rw [hd]
    simp only [hw]
    rw [if_neg]
    rw [List.count_eq_zero.2 (truthyLinks_no_empty m)]
    omega

/-- C5 (witness): a genuinely shared non-empty link is cleared on a holder,
and a uniquely-held link is preserved. -/
theorem claim5_witness :
    (dedupe_wikilinks [("a", linkNode "a" (some "X")), ("b", linkNode "b" (some "X"))])[0]?
      = some ("a", { linkNode "a" (some "X") with wikilink := none }) :=
  (claim5_dedupe [("a", linkNode "a" (some "X")), ("b", linkNode "b" (some "X"))] 0
    ("a", linkNode "a" (some "X")) rfl).1 "X" rfl (by decide) (by decide)

/-- C6: the edge pass keeps the key set of the nodes mapping, and the entry
at each position gains exactly the `(pred, obj)` pairs of the edges whose
subject is its key, in input order.  Hence an edge `(sub, pred, obj)` is
appended to the relationships of the node with identifier `sub` precisely
when `sub` is a retained key, and an edge whose subject is not retained
contributes a relationship to no node at all. -/
theorem claim6_edges (m : List (String × DONode)) (edges : List RawEdge) :
    ((parse_edges m edges).map Prod.fst = m.map Prod.fst)
    ∧ ∀ i : Nat, (parse_edges m edges)[i]? = (m[i]?).map (fun p =>
        (p.1, { p.2 with relationships := p.2.relationships ++ ownEdges edges p.1 })) :=
  ⟨parse_edges_keys edges m, fun i => parse_edges_getq edges m i⟩

/-- C9: the dedupe pass keeps the key list of the mapping, and for the
entry at each position it keeps the key and every field other than
`wikilink` (id, doid, label, namespace, definition, definition xrefs,
deprecated, alt ids, synonyms, xrefs, relationships); whenever it does
change the `wikilink`, the node's previous link value was shared with at
least one other node (the value's holder count in the input mapping is at
least two). -/
theorem claim9_frame (m : List (String × DONode)) :
    ((dedupe_wikilinks m).map Prod.fst = m.map Prod.fst)
    ∧ ∀ (i : Nat) (p q : String × DONode), m[i]? = some p →
        (dedupe_wikilinks m)[i]? = some q →
        (q.1 = p.1 ∧ q.2.id = p.2.id ∧ q.2.doid = p.2.doid ∧ q.2.lbl = p.2.lbl
          ∧ q.2.«namespace» = p.2.«namespace» ∧ q.2.definition = p.2.definition
          ∧ q.2.definition_xrefs = p.2.definition_xrefs ∧ q.2.deprecated = p.2.deprecated
          ∧ q.2.alt_id = p.2.alt_id ∧ q.2.synonyms = p.2.synonyms
          ∧ q.2.xrefs = p.2.xrefs ∧ q.2.relationships = p.2.relationships)
        ∧ (q.2.wikilink ≠ p.2.wikilink →
            2 ≤ (m.filter (fun r => r.2.wikilink = p.2.wikilink)).length) := by
  refine ⟨dedupe_keys m, ?_⟩
  intro i p q hp hq
  have hd : (dedupe_wikilinks m)[i]? = (m[i]?).map (fun p =>
      match p.2.wikilink with
      | some w => if 1 < (truthyLinks m).count w then (p.1, { p.2 with wikilink := none }) else p
      | none => p) := by
    rw [dedupe_wikilinks]
    exact getq_map _ m i
  rw [hp, Option.map_some', hq] at hd
  have hq2 := Option.some.inj hd
  cases hw : p.2.wikilink with
  | none =>
    simp only [hw] at hq2
    subst hq2
    exact ⟨⟨rfl, rfl, rfl, rfl, rfl, rfl, rfl, rfl, rfl, rfl, rfl, rfl⟩,
      fun hne => (hne hw).elim⟩
  | some w =>
    simp only [hw] at hq2
    by_cases hc : 1 < (truthyLinks m).count w
    · rw [if_pos hc] at hq2
      subst hq2
      have hmem : w ∈ truthyLinks m := List.count_pos_iff.1 (by omega)
      have hne : w ≠ "" := truthyLinks_ne_empty hmem
      refine ⟨⟨rfl, rfl, rfl, rfl, rfl, rfl, rfl, rfl, rfl, rfl, rfl, rfl⟩, ?_⟩
      intro _
      rw [← truthyLinks_count m w hne]
      omega
    · rw [if_neg hc] at hq2
      subst hq2
      exact ⟨⟨rfl, rfl, rfl, rfl, rfl, rfl, rfl, rfl, rfl, rfl, rfl, rfl⟩,
        fun hne => (hne hw).elim⟩

/-- C1: over the full graph construction (node pass, then edge pass, then
wiki-link dedupe), a raw entry's node is retained in the nodes mapping if
and only if its type is `"CLASS"`, its deprecated flag is `false`, and its
namespace equals the graph's default namespace; and every node in the final
mapping satisfies all three conditions.  The raw entries are assumed to
carry pairwise distinct ids (Python dict semantics would otherwise let a
later duplicate entry overwrite an earlier one). -/
theorem claim1_retention (d : String) (raws : List RawNode) (edges : List RawEdge)
    (m : List (String × DONode)) (hok : buildNodes d raws edges = .ok m)
    (hnd : (raws.map RawNode.id).Nodup) :
    (∀ r ∈ raws, ∀ n, mkDONode r = .ok n → (claimCond d n ↔ n.id ∈ m.map Prod.fst))
    ∧ (∀ p ∈ m, claimCond d p.2) := by
  cases hpn : parse_nodes d raws with
  | error e => rw [buildNodes, hpn] at hok; cases hok
  | ok m0 =>
    rw [buildNodes, hpn] at hok
    simp only [Except.ok.injEq] at hok
    subst hok
    rw [parse_nodes] at hpn
    have hkeys : (dedupe_wikilinks (parse_edges m0 edges)).map Prod.fst
        = m0.map Prod.fst := by
      rw [dedupe_keys, parse_edges_keys]
    constructor
    · intro r hr n hmk
      rw [hkeys, parse_nodes_aux_mem d raws [] m0 hpn n.id]
      simp only [List.map_nil, List.not_mem_nil, false_or]
      constructor
      · intro hc
        exact ⟨r, hr, n, hmk, (retain_iff hmk).2 hc, rfl⟩
      · rintro ⟨r2, hr2, n2, hmk2, hret2, hid2⟩
        have hid3 : r2.id = r.id :=
          (mkDONode_id hmk2).symm.trans (hid2.trans (mkDONode_id hmk))
        have hrr : r2 = r := List.inj_on_of_nodup_map hnd hr2 hr hid3
        subst hrr
        have hn : n2 = n := by
          rw [hmk] at hmk2
          exact (Except.ok.inj hmk2).symm
        subst hn
        exact (retain_iff hmk).1 hret2
    · intro p hp
      obtain ⟨q, hq, _, _, hqty, hqdep, hqns⟩ := dedupe_fields hp
      obtain ⟨q0, hq0, _, _, h0ty, h0dep, h0ns⟩ := parse_edges_fields hq
      have hcond : claimCond d q0.2 := by
        refine parse_nodes_aux_inv d (fun p => claimCond d p.2) raws [] m0 hpn
          (fun p hp => absurd hp (List.not_mem_nil p)) ?_ q0 hq0
        intro r2 _ n2 hmk2 hret2
        exact (retain_iff hmk2).1 hret2
      unfold claimCond at hcond ⊢
      rw [hqty, hqdep, hqns, h0ty, h0dep, h0ns]
      exact hcond

/-- C1 (witness): with one qualifying and one non-qualifying raw entry, the
retention equivalence holds at the qualifying entry. -/
theorem claim1_witness :
    claimCond "disease_ontology" nodeGood ↔ nodeGood.id ∈ mGood.map Prod.fst :=
  (claim1_retention "disease_ontology" [rawGood, rawNoMeta] [] mGood rfl
    (by decide)).1 rawGood (List.mem_cons_self _ _) nodeGood rfl

/-- C9 (witness): a singleton mapping with a uniquely-held link passes
through unchanged, and the frame conjunction holds of it. -/
theorem claim9_witness :
    (pairW.1 = pairW.1 ∧ pairW.2.id = pairW.2.id ∧ pairW.2.doid = pairW.2.doid
      ∧ pairW.2.lbl = pairW.2.lbl ∧ pairW.2.«namespace» = pairW.2.«namespace»
      ∧ pairW.2.definition = pairW.2.definition
      ∧ pairW.2.definition_xrefs = pairW.2.definition_xrefs
      ∧ pairW.2.deprecated = pairW.2.deprecated ∧ pairW.2.alt_id = pairW.2.alt_id
      ∧ pairW.2.synonyms = pairW.2.synonyms ∧ pairW.2.xrefs = pairW.2.xrefs
      ∧ pairW.2.relationships = pairW.2.relationships)
    ∧ (pairW.2.wikilink ≠ pairW.2.wikilink →
        2 ≤ ([pairW].filter (fun r => r.2.wikilink = pairW.2.wikilink)).length) :=
  (claim9_frame [pairW]).2 0 pairW pairW rfl rfl

end DOID
